import Mathlib

/-!
Verification development for the traffic interception and protocol decoding
engine of the ExtensionCraft repository.  The definitions below are shallow
embeddings of the TypeScript sources: pure functions become Lean functions,
stateful classes become explicit state passing, JavaScript exceptions become
Except or Option values, and JavaScript machine integers are modelled as Nat
(no overflow is relevant to the properties proved here).
-/

set_option autoImplicit false

/-! ## String helpers

JavaScript string operations used by the sources, modelled over the
character lists of Lean strings.  toLowerCase and toUpperCase are used by
the sources only on ASCII data (schema names, HTTP methods, header names),
so the ASCII Char.toLower and Char.toUpper are a faithful model here.
-/

/-- Lowercase a string character by character, as String.prototype.toLowerCase
does on ASCII input. -/
def lowerStr (s : String) : String := String.mk (s.data.map Char.toLower)

/-- Uppercase a string character by character, as String.prototype.toUpperCase
does on ASCII input. -/
def upperStr (s : String) : String := String.mk (s.data.map Char.toUpper)

/-- Does the character list start with the given needle? -/
def startsWithL : List Char → List Char → Bool
  | [], _ => true
  | _ :: _, [] => false
  | a :: as, b :: bs => a == b && startsWithL as bs

/-- Does the needle occur as a contiguous run inside the haystack?  Models
String.prototype.includes. -/
def isSubL (needle : List Char) : List Char → Bool
  | [] => needle.isEmpty
  | c :: t => startsWithL needle (c :: t) || isSubL needle t

/-- String containment, as String.prototype.includes: does hay contain needle? -/
def containsStr (hay needle : String) : Bool := isSubL needle.data hay.data

/-- Case-insensitive containment: hay.toLowerCase().includes(needle.toLowerCase()). -/
def containsCI (hay needle : String) : Bool :=
  containsStr (lowerStr hay) (lowerStr needle)

/-! ## Line-oriented proto scan
(src/unnamed/part_000, UniversalProtobufParser.extractMessageTypes)

The source scans the schema text line by line with the regular expressions
for a package declaration and for a message declaration, and the models below
reproduce the first-match semantics of those two patterns.  Both patterns
consist of a literal word, one or more whitespace characters, and a greedy
character-class capture; the classes are disjoint from whitespace, so maximal
munch is exactly the regex behaviour.
-/

/-- The word-character class of the regex: letters, digits and underscore. -/
def isWordChar (c : Char) : Bool := c.isAlphanum || c == '_'

/-- The character class of the package capture: word characters and dots. -/
def isDotWord (c : Char) : Bool := isWordChar c || c == '.'

/-- Whitespace characters recognised in source lines (the lines never contain
a newline because the text was split on newlines first). -/
def isSpaceC (c : Char) : Bool :=
  c == ' ' || c == '\t' || c == '\r' || c == '\n' || c == '\x0b' || c == '\x0c'

/-- Match a literal pattern at the head of the input, returning the rest. -/
def litMatch : List Char → List Char → Option (List Char)
  | [], rest => some rest
  | _ :: _, [] => none
  | p :: ps, c :: cs => if p == c then litMatch ps cs else none

/-- Try to match, at the head of the input, the literal keyword followed by
one or more whitespace characters followed by one or more characters of the
capture class; return the capture. -/
def matchAfter (kw : String) (capClass : Char → Bool) (cs : List Char) :
    Option String :=
  match litMatch kw.data cs with
  | none => none
  | some rest =>
    let ws := rest.takeWhile isSpaceC
    let r2 := rest.dropWhile isSpaceC
    if ws.isEmpty then none
    else
      let cap := r2.takeWhile capClass
      if cap.isEmpty then none else some (String.mk cap)

/-- First-match scan over the line, as an unanchored regex search: try the
pattern at each start position from the left. -/
def scanFirst (kw : String) (capClass : Char → Bool) : List Char → Option String
  | [] => none
  | c :: cs =>
    match matchAfter kw capClass (c :: cs) with
    | some s => some s
    | none => scanFirst kw capClass cs

/-- Capture of the first match of the package pattern on a line. -/
def pkgCapture (line : String) : Option String :=
  scanFirst "package" isDotWord line.data

/-- Capture of the first match of the message pattern on a line. -/
def msgCapture (line : String) : Option String :=
  scanFirst "message" isWordChar line.data

/-- Qualification of a message name by the current package, as the template
string in the source: the empty package string is falsy and yields the bare
name. -/
def qualify (pkg name : String) : String :=
  if pkg = "" then name else pkg ++ "." ++ name

/-- Update of currentPackage by one line: the capture when the package
pattern matches, the previous value otherwise. -/
def updPkg (p : String) (line : String) : String :=
  match pkgCapture line with
  | some c => c
  | none => p

/-- Loop body of extractMessageTypes over the list of lines, threading
currentPackage. -/
def extractGo : List String → String → List String
  | [], _ => []
  | l :: ls, p =>
    let p' := updPkg p l
    match msgCapture l with
    | some n => qualify p' n :: extractGo ls p'
    | none => extractGo ls p'

/-- UniversalProtobufParser.extractMessageTypes: split the schema text on
newlines and scan each line for package and message declarations, starting
from the empty package. -/
def extractMessageTypes (content : String) : List String :=
  extractGo (content.splitOn "\n") ""

/-! ## Schema registry and trial decoding
(src/unnamed/part_000, UniversalProtobufParser)
-/

/-- The ProtoDefinition record stored by registerProto. -/
structure ProtoDefinition where
  name : String
  content : String
  messageTypes : List String
deriving DecidableEq, Repr

/-- The DecodeResult value returned by tryParse.  The data component is kept
polymorphic because the decoded representation is produced by the external
protobuf runtime. -/
structure DecodeR (α : Type) where
  success : Bool
  data : Option α
  messageType : Option String
  protoName : Option String
deriving DecidableEq, Repr

/-- The no-candidate-succeeded result. -/
def failResult {α : Type} : DecodeR α := ⟨false, none, none, none⟩

/-- Candidate selection of tryParse: all registered schemas, or those whose
name case-insensitively contains the domain hint.  The registry list reflects
the insertion order of the protoDefinitions map. -/
def candidatesOf (registry : List ProtoDefinition) (domain : Option String) :
    List ProtoDefinition :=
  match domain with
  | some d => registry.filter (fun p => containsCI p.name d)
  | none => registry

/-- Inner loop of tryParse over the message types of one candidate schema.
The decodeMessage call of the external protobuf runtime is modelled as a
function into Except: an error value is the exception it throws on a
structurally invalid buffer, and the try/catch of the source consumes it and
moves on to the next message type. -/
def tryMsgs {α : Type} (decode : String → List Nat → Except String α)
    (pname : String) (buffer : List Nat) : List String → Option (DecodeR α)
  | [] => none
  | mt :: rest =>
    match decode mt buffer with
    | .ok d => some ⟨true, some d, some mt, some pname⟩
    | .error _ => tryMsgs decode pname buffer rest

/-- Outer loop of tryParse over the candidate schemas.  The parsers map of
the source is kept in lockstep with protoDefinitions by registerProto, so the
lookup guard never skips a candidate and is not modelled separately. -/
def tryCands {α : Type} (decode : String → List Nat → Except String α)
    (buffer : List Nat) : List ProtoDefinition → Option (DecodeR α)
  | [] => none
  | p :: rest =>
    match tryMsgs decode p.name buffer p.messageTypes with
    | some r => some r
    | none => tryCands decode buffer rest

/-- UniversalProtobufParser.tryParse.  The result type is Except so that an
exception escaping the function would be visible as an error value; the body
only ever constructs an ok value because the single throwing call is wrapped
in try/catch inside the loops. -/
def tryParse {α : Type} (decode : String → List Nat → Except String α)
    (registry : List ProtoDefinition) (buffer : List Nat)
    (domain : Option String) : Except String (DecodeR α) :=
  .ok ((tryCands decode buffer (candidatesOf registry domain)).getD failResult)

/-! Specification-side description of tryParse, written from the spec
sentence: candidate schemas in registration order, message types in
extraction order, first structurally successful attempt wins, otherwise a
failure result.  It exists to be compared with the source-side function. -/

/-- All (schema name, message type) attempts in scan order. -/
def allPairs : List ProtoDefinition → List (String × String)
  | [] => []
  | p :: rest => p.messageTypes.map (fun mt => (p.name, mt)) ++ allPairs rest

/-- Is the Except value a success? -/
def isOkE {ε α : Type} : Except ε α → Bool
  | .ok _ => true
  | .error _ => false

/-- The success payload of an Except value, when present. -/
def okOf {ε α : Type} : Except ε α → Option α
  | .ok a => some a
  | .error _ => none

/-- Defined from the spec sentence for comparison with tryParse: scan the
flattened attempt list in order and return the first structural success. -/
def specDecode {α : Type} (decode : String → List Nat → Except String α)
    (cands : List ProtoDefinition) (buffer : List Nat) : DecodeR α :=
  match (allPairs cands).find? (fun pr => isOkE (decode pr.2 buffer)) with
  | some (n, mt) => ⟨true, okOf (decode mt buffer), some mt, some n⟩
  | none => failResult

/-! ## Structural wire decoding

Modelled from the spec: the structural decode performed for each candidate
message type is done by the external protobuf runtime, which is not part of
the repository sources; the spec describes it as a parse of the byte stream
against the field-tag and wire-type grammar of the protobuf wire format.
The model below parses a sequence of fields, each a varint tag whose low
three bits select the wire type (0 varint, 1 eight bytes, 5 four bytes,
2 length-delimited) with field numbers starting at one; any other shape is
a structural failure. -/

/-- One decoded wire value. -/
inductive WireVal where
  | varint (n : Nat)
  | fixed64 (bs : List Nat)
  | lengthDelim (bs : List Nat)
  | fixed32 (bs : List Nat)
deriving DecidableEq, Repr

/-- Read one base-128 varint from the head of the byte list. -/
def readVarint : List Nat → Option (Nat × List Nat)
  | [] => none
  | b :: bs =>
    if b < 128 then some (b, bs)
    else
      match readVarint bs with
      | some (v, rest) => some ((b - 128) + 128 * v, rest)
      | none => none

/-- Parse a sequence of wire-format fields; the fuel is an upper bound on the
number of fields, each of which consumes at least one byte. -/
def parseFieldsGo : Nat → List Nat → Option (List (Nat × WireVal))
  | _, [] => some []
  | 0, _ :: _ => none
  | fuel + 1, b :: bs =>
    match readVarint (b :: bs) with
    | none => none
    | some (tag, rest) =>
      let fieldNo := tag / 8
      let wt := tag % 8
      if fieldNo == 0 then none
      else if wt == 0 then
        match readVarint rest with
        | some (v, r2) => (parseFieldsGo fuel r2).map (fun fs => (fieldNo, WireVal.varint v) :: fs)
        | none => none
      else if wt == 1 then
        if 8 ≤ rest.length then
          (parseFieldsGo fuel (rest.drop 8)).map (fun fs => (fieldNo, WireVal.fixed64 (rest.take 8)) :: fs)
        else none
      else if wt == 2 then
        match readVarint rest with
        | some (len, r2) =>
          if len ≤ r2.length then
            (parseFieldsGo fuel (r2.drop len)).map (fun fs => (fieldNo, WireVal.lengthDelim (r2.take len)) :: fs)
          else none
        | none => none
      else if wt == 5 then
        if 4 ≤ rest.length then
          (parseFieldsGo fuel (rest.drop 4)).map (fun fs => (fieldNo, WireVal.fixed32 (rest.take 4)) :: fs)
        else none
      else none

/-- Parse a whole buffer as a field sequence. -/
def parseFields (bs : List Nat) : Option (List (Nat × WireVal)) :=
  parseFieldsGo (bs.length + 1) bs

/-- Modelled from the spec: structural decode of a buffer against a message
type.  The wire grammar does not depend on the particular message type, only
on the field-tag and wire-type shape of the stream; failure is the exception
thrown by the runtime decoder. -/
def structuralDecode (_mt : String) (bs : List Nat) :
    Except String (List (Nat × WireVal)) :=
  match parseFields bs with
  | some fs => .ok fs
  | none => .error "invalid wire type"

/-! ## Bounded event recorders
(src/unnamed/part_001: AdvancedXHRHook.recordEvent, AdvancedFetchHook.recordEvent,
AdvancedWebSocketHook.recordEvent)

Each recorder pushes the new event at the end of its array and, when the
length then exceeds the capacity, shifts the oldest entry off the front.
-/

/-- The common push-then-shift step with the given capacity. -/
def recordEventG {α : Type} (cap : Nat) (events : List α) (e : α) : List α :=
  let es := events ++ [e]
  if cap < es.length then es.drop 1 else es

/-- The XHREvent record of the advanced XHR hook. -/
structure XHREvent where
  url : String
  method : String
  requestHeaders : List (String × String)
  requestBody : String
  responseHeaders : List (String × String)
  responseBody : String
  status : Nat
  timestamp : Nat
deriving DecidableEq, Repr

/-- The FetchEvent record of the advanced fetch hook. -/
structure FetchEvent where
  url : String
  method : String
  requestHeaders : List (String × String)
  requestBody : String
  responseHeaders : List (String × String)
  responseBody : String
  status : Nat
  timestamp : Nat
deriving DecidableEq, Repr

/-- Lifecycle kind of a WebSocket event. -/
inductive WSType where
  | wopen
  | wclose
  | wmessage
  | wsend
  | werror
deriving DecidableEq, Repr

/-- The WebSocketEvent record of the advanced WebSocket hook. -/
structure WSEvent where
  url : String
  wtype : WSType
  message : Option String
  raw : Option String
  code : Option Nat
  reason : Option String
  timestamp : Nat
deriving DecidableEq, Repr

/-- AdvancedXHRHook.recordEvent with maxEvents 1000. -/
def xhrRecordEvent (events : List XHREvent) (e : XHREvent) : List XHREvent :=
  recordEventG 1000 events e

/-- AdvancedFetchHook.recordEvent with the literal bound 1000. -/
def fetchRecordEvent (events : List FetchEvent) (e : FetchEvent) : List FetchEvent :=
  recordEventG 1000 events e

/-- AdvancedWebSocketHook.recordEvent with the literal bound 2000. -/
def wsRecordEvent (events : List WSEvent) (e : WSEvent) : List WSEvent :=
  recordEventG 2000 events e

/-! ## Fetch wrapper
(src/unnamed/part_001: the basic fetchHook and AdvancedFetchHook.install)

The wrapped call either completes with the Response of the original fetch or
propagates a thrown error.  The JSON parse performed by the host on a cloned
response body is modelled as a function into Option: none is the exception
it throws on text that is not valid JSON.
-/

/-- Errors observable by a caller of the wrapped fetch. -/
inductive JsError where
  | hostError (msg : String)
  | jsonError
deriving DecidableEq, Repr

/-- The Response value of the host fetch, with its body text. -/
structure FetchResponse where
  status : Nat
  statusText : String
  headers : List (String × String)
  body : String
deriving DecidableEq, Repr

/-- The request data the wrapper extracts before calling through. -/
structure FetchReq where
  url : String
  method : String
  headers : List (String × String)
  body : Option String
deriving DecidableEq, Repr

/-- Headers.get: case-insensitive lookup of a header value. -/
def headerGet (hs : List (String × String)) (k : String) : Option String :=
  (hs.find? (fun p => lowerStr p.1 == lowerStr k)).map (fun p => p.2)

/-- The mock Response returned when an interceptor claims the request. -/
def mockResponse : FetchResponse :=
  ⟨200, "", [("Content-Type", "application/json")], "\x7b\"intercepted\":true\x7d"⟩

/-- The basic fetchHook wrapper: it calls the original fetch, reads a clone of
the response in a detached promise chain whose failures are caught internally,
and hands the original outcome to the caller unchanged. -/
def basicFetchHook (orig : Except JsError FetchResponse) :
    Except JsError FetchResponse :=
  match orig with
  | .ok r => .ok r
  | .error e => .error e

/-- AdvancedFetchHook.install wrapper body.  The interceptor loop stops at the
first interceptor returning true and then answers with the mock response.
Otherwise the original outcome is examined: on success the clone body is read
according to the content type inside the try block, so a JSON parse failure is
rethrown to the caller by the catch block; on failure the original error is
rethrown. -/
def advancedFetch {α : Type} (jsonParse : String → Option α)
    (interceptors : List (FetchReq → Bool)) (req : FetchReq)
    (orig : Except JsError FetchResponse) : Except JsError FetchResponse :=
  if interceptors.any (fun i => i req) then .ok mockResponse
  else
    match orig with
    | .error e => .error e
    | .ok r =>
      let ct := (headerGet r.headers "content-type").getD ""
      if containsStr ct "application/json" then
        match jsonParse r.body with
        | some _ => .ok r
        | none => .error JsError.jsonError
      else if containsStr ct "text/" then .ok r
      else .ok r

/-! ## Event filter
(src/unnamed/part_001, EventFilter.filter)

The generic event type of the filter has every field optional.  Two modelling
conventions for host facilities: the data field holds the JSON serialization
of the data object when that object is present and truthy (none otherwise),
and fullText holds the JSON serialization of the whole event, so the keyword
test on JSON.stringify output is a containment test on these strings.  The
content-type header chain of the source is carried as the contentTypeVal
field, empty when the data object carries no such header. -/

/-- The generic event shape the filter operates on. -/
structure QEvent where
  source : Option String
  url : Option String
  method : Option String
  status : Option Nat
  timestamp : Option Nat
  data : Option String
  fullText : String
  contentTypeVal : String
deriving DecidableEq, Repr

/-- The statusCode constraint: an exact number or an inclusive range with
optional bounds. -/
inductive StatusCode where
  | exact (n : Nat)
  | range (min : Option Nat) (max : Option Nat)
deriving DecidableEq, Repr

/-- The FilterOptions record, every field optional. -/
structure FilterOptions where
  sources : Option (List String)
  urlPattern : Option String
  method : Option String
  statusCode : Option StatusCode
  timeRange : Option (Nat × Nat)
  keyword : Option String
  contentType : Option String
deriving DecidableEq, Repr

/-- JavaScript truthiness of an optional string: present and nonempty. -/
def strTruthy : Option String → Bool
  | some s => s != ""
  | none => false

/-- JavaScript truthiness of an optional number: present and nonzero. -/
def numTruthy : Option Nat → Bool
  | some n => n != 0
  | none => false

/-- Truthiness of the statusCode option: a number is falsy at zero, a range
object is always truthy. -/
def scTruthy : Option StatusCode → Bool
  | none => false
  | some (.exact n) => n != 0
  | some (.range _ _) => true

/-- Source constraint: reject when a sources array and a truthy event source
are both present and the array does not include the source. -/
def sourcePass (o : FilterOptions) (e : QEvent) : Bool :=
  match o.sources, e.source with
  | some ss, some s => if s != "" then ss.contains s else true
  | _, _ => true

/-- URL pattern constraint.  Modelled from the spec: string matching on URLs
is case-insensitive substring matching (the source builds a case-insensitive
regular expression from the pattern; the claims never exercise regex
metacharacters). -/
def urlPass (o : FilterOptions) (e : QEvent) : Bool :=
  if strTruthy o.urlPattern && strTruthy e.url then
    containsCI (e.url.getD "") (o.urlPattern.getD "")
  else true

/-- Method constraint: both sides uppercased, skipped when either side is
absent or empty. -/
def methodPass (o : FilterOptions) (e : QEvent) : Bool :=
  if strTruthy o.method && strTruthy e.method then
    upperStr (e.method.getD "") == upperStr (o.method.getD "")
  else true

/-- Status constraint: exact equality or inclusive bounds, skipped when the
option is falsy or the event status is undefined. -/
def statusPass (o : FilterOptions) (e : QEvent) : Bool :=
  if scTruthy o.statusCode then
    match o.statusCode, e.status with
    | some (.exact n), some s => s == n
    | some (.range mn mx), some s =>
      (match mn with | some lo => decide (lo ≤ s) | none => true) &&
      (match mx with | some hi => decide (s ≤ hi) | none => true)
    | _, none => true
    | none, _ => true
  else true

/-- Time range constraint: each bound applies only when truthy, and the whole
check is skipped when the event timestamp is absent or zero. -/
def timePass (o : FilterOptions) (e : QEvent) : Bool :=
  match o.timeRange with
  | some tr =>
    if numTruthy e.timestamp then
      let ts := e.timestamp.getD 0
      (if tr.1 != 0 then decide (tr.1 ≤ ts) else true) &&
      (if tr.2 != 0 then decide (ts ≤ tr.2) else true)
    else true
  | none => true

/-- The text the keyword is searched in: the serialized data object when
present and truthy, the serialized event otherwise. -/
def searchTextOf (e : QEvent) : String := (e.data).getD e.fullText

/-- Keyword constraint: lowercase containment in the serialized text, skipped
when the keyword is absent or empty. -/
def keywordPass (o : FilterOptions) (e : QEvent) : Bool :=
  match o.keyword with
  | some k => if k != "" then containsStr (lowerStr (searchTextOf e)) (lowerStr k) else true
  | none => true

/-- Content-type constraint: case-sensitive containment in the content-type
header of the data object, skipped when the option is falsy or the event has
no data object. -/
def ctypePass (o : FilterOptions) (e : QEvent) : Bool :=
  match o.contentType, e.data with
  | some ct, some _ => if ct != "" then containsStr e.contentTypeVal ct else true
  | _, _ => true

/-- The conjunction of all constraint checks for one event. -/
def eventPass (o : FilterOptions) (e : QEvent) : Bool :=
  sourcePass o e && urlPass o e && methodPass o e && statusPass o e &&
  timePass o e && keywordPass o e && ctypePass o e

/-- EventFilter.filter: keep the events passing every present constraint. -/
def EventFilter.filter (events : List QEvent) (o : FilterOptions) : List QEvent :=
  events.filter (eventPass o)

/-! ## WebSocket hook state
(src/unnamed/part_001, AdvancedWebSocketHook)

The hook keeps a map from connection ids to sockets, an event buffer with
capacity 2000, and a connection id counter.  The map is modelled by its list
of keys: ids are fresh (the counter increments at every construction), so
setting a new key appends it and deleting a key filters it out.  Each wrapped
socket lifecycle moment is one operation on this state.
-/

/-- The mutable state of the advanced WebSocket hook. -/
structure WSHookState where
  connections : List Nat
  events : List WSEvent
  counter : Nat
deriving DecidableEq, Repr

/-- The initial hook state. -/
def wsInitState : WSHookState := ⟨[], [], 0⟩

/-- One observable lifecycle moment of a wrapped socket. -/
inductive WSOp where
  | create (url : String) (t : Nat)
  | openEv (url : String) (t : Nat)
  | closeEv (id : Nat) (url : String) (code : Nat) (reason : String) (t : Nat)
  | errorEv (url : String) (t : Nat)
  | messageEv (url : String) (raw : String) (t : Nat)
deriving DecidableEq, Repr

/-- Socket construction inside the WebSocketHook wrapper: take the current
counter as the connection id, increment the counter, and register the socket
in the connections map. -/
def wsCreate (st : WSHookState) : WSHookState :=
  ⟨st.connections ++ [st.counter], st.events, st.counter + 1⟩

/-- The open listener: record an open event. -/
def wsOpenEv (st : WSHookState) (url : String) (t : Nat) : WSHookState :=
  ⟨st.connections, wsRecordEvent st.events ⟨url, WSType.wopen, none, none, none, none, t⟩,
    st.counter⟩

/-- The close listener: record a close event and delete the connection id
from the connections map. -/
def wsCloseEv (st : WSHookState) (id : Nat) (url : String) (code : Nat)
    (reason : String) (t : Nat) : WSHookState :=
  ⟨st.connections.filter (fun x => x != id),
    wsRecordEvent st.events ⟨url, WSType.wclose, none, none, some code, some reason, t⟩,
    st.counter⟩

/-- The error listener: record an error event; the connections map is not
touched. -/
def wsErrorEv (st : WSHookState) (url : String) (t : Nat) : WSHookState :=
  ⟨st.connections, wsRecordEvent st.events ⟨url, WSType.werror, none, none, none, none, t⟩,
    st.counter⟩

/-- The message listener: record a message event. -/
def wsMessageEv (st : WSHookState) (url : String) (raw : String) (t : Nat) :
    WSHookState :=
  ⟨st.connections, wsRecordEvent st.events ⟨url, WSType.wmessage, some raw, some raw, none, none, t⟩,
    st.counter⟩

/-- Step the hook state by one operation. -/
def wsStep (st : WSHookState) : WSOp → WSHookState
  | .create _ _ => wsCreate st
  | .openEv url t => wsOpenEv st url t
  | .closeEv id url code reason t => wsCloseEv st id url code reason t
  | .errorEv url t => wsErrorEv st url t
  | .messageEv url raw t => wsMessageEv st url raw t

/-- Run a sequence of operations. -/
def wsRun (st : WSHookState) (ops : List WSOp) : WSHookState :=
  ops.foldl wsStep st

/-- AdvancedWebSocketHook.getActiveConnections: the size of the connections
map. -/
def getActiveConnections (st : WSHookState) : Nat := st.connections.length

/-- The connection ids assigned by the create operations of a run, in
creation order. -/
def wsAssigned (st : WSHookState) : List WSOp → List Nat
  | [] => []
  | op :: ops =>
    match op with
    | .create _ _ => st.counter :: wsAssigned (wsStep st op) ops
    | _ => wsAssigned (wsStep st op) ops

/-! ## Stored event ids
(src/unnamed/part_001, HookStorage.storeEvents)

storeEvents stamps each incoming event with the id template string combining
the current clock reading with a random base-36 suffix.  The clock readings
and the random draws are inputs of the model, one pair per event.
-/

/-- A raw hook event arriving at storage. -/
structure RawEvent where
  source : String
  rtype : String
  data : String
  timestamp : Nat
  url : Option String
deriving DecidableEq, Repr

/-- A stored hook event with its stamped id. -/
structure StoredHookEvent where
  id : String
  source : String
  rtype : String
  data : String
  timestamp : Nat
  url : Option String
deriving DecidableEq, Repr

/-- The id template string of storeEvents. -/
def mkId (clock : Nat) (rnd : String) : String :=
  toString clock ++ "-" ++ rnd

/-- Stamp one event with an id built from a clock reading and a random
suffix. -/
def makeStored (clock : Nat) (rnd : String) (e : RawEvent) : StoredHookEvent :=
  ⟨mkId clock rnd, e.source, e.rtype, e.data, e.timestamp, e.url⟩

/-- The id-stamping map of storeEvents, one clock reading and one random
draw per event. -/
def assignIds : List Nat → List String → List RawEvent → List StoredHookEvent
  | c :: cs, r :: rs, e :: es => makeStored c r e :: assignIds cs rs es
  | _, _, _ => []

/-! ## Snapshot copies and shared elements
(src/unnamed/part_001: AdvancedFetchHook.getEvents, AdvancedWebSocketHook.getEvents)

getEvents returns a fresh array spread from the internal events array.  To
reason about what the caller can reach through that copy, arrays and event
objects live in an explicit store: an array is a list of object references
and the recorder owns one array reference.  getEvents allocates a new array
with the same references.  The caller can mutate their array (set, push,
pop, clear) or write a field of an object reached through it.
-/

/-- An event object in the store, with representative fields. -/
structure EvObj where
  url : String
  status : Nat
deriving DecidableEq, Repr

/-- The store of arrays and event objects; references are list indices. -/
structure SnapHeap where
  arrays : List (List Nat)
  objs : List EvObj
deriving DecidableEq, Repr

/-- Read a list at an index with a default. -/
def getIdx {α : Type} (d : α) : List α → Nat → α
  | [], _ => d
  | x :: _, 0 => x
  | _ :: xs, n + 1 => getIdx d xs n

/-- Write a list at an index; out-of-range writes change nothing. -/
def setIdx {α : Type} : List α → Nat → α → List α
  | [], _, _ => []
  | _ :: xs, 0, v => v :: xs
  | x :: xs, n + 1, v => x :: setIdx xs n v

/-- getEvents: allocate a fresh array holding the same object references as
the recorder's array and return its reference. -/
def getEventsAlloc (h : SnapHeap) (bufRef : Nat) : SnapHeap × Nat :=
  (⟨h.arrays ++ [getIdx [] h.arrays bufRef], h.objs⟩, h.arrays.length)

/-- An array-level mutation the caller can perform on an array it holds. -/
inductive ArrMut where
  | setAt (i v : Nat)
  | push (v : Nat)
  | pop
  | clearAll
deriving DecidableEq, Repr

/-- Apply one array mutation to the array at the given reference. -/
def applyMut (h : SnapHeap) (r : Nat) : ArrMut → SnapHeap
  | .setAt i v => ⟨setIdx h.arrays r (setIdx (getIdx [] h.arrays r) i v), h.objs⟩
  | .push v => ⟨setIdx h.arrays r (getIdx [] h.arrays r ++ [v]), h.objs⟩
  | .pop => ⟨setIdx h.arrays r ((getIdx [] h.arrays r).dropLast), h.objs⟩
  | .clearAll => ⟨setIdx h.arrays r [], h.objs⟩

/-- Apply a sequence of array mutations to the array at the given
reference. -/
def applyMuts (h : SnapHeap) (r : Nat) (ms : List ArrMut) : SnapHeap :=
  ms.foldl (fun h2 m => applyMut h2 r m) h

/-- Write the url field of the object at the given object reference. -/
def setObjUrl (h : SnapHeap) (oRef : Nat) (u : String) : SnapHeap :=
  ⟨h.arrays, setIdx h.objs oRef ⟨u, (getIdx ⟨"", 0⟩ h.objs oRef).status⟩⟩

/-- The event log the recorder observes through its array reference: the
objects its array currently refers to, in order. -/
def renderBuffer (h : SnapHeap) (r : Nat) : List EvObj :=
  (getIdx [] h.arrays r).map (fun o => getIdx ⟨"", 0⟩ h.objs o)

/-! ## Claim-side definitions

Functions written from the wording of the specification sentences, to be
compared with the source-side functions above, plus concrete sample values
used by counterexamples and witnesses.
-/

/-- The package in effect for line i: the result of folding the package
updates over the lines up to and including line i, starting from the empty
package. -/
def pkgAt (lines : List String) (i : Nat) : String :=
  (lines.take (i + 1)).foldl updPkg ""

/-- Written from the claim wording: one entry per line whose text matches the
message pattern, in source line order, each qualified by the most recently
seen package declaration; no brace structure is consulted, so nesting cannot
influence the result. -/
def claimMessageTypes (content : String) : List String :=
  (List.range ((content.splitOn "\n").length)).filterMap
    (fun i => (msgCapture ((content.splitOn "\n").getD i "")).map
      (fun n => qualify (pkgAt (content.splitOn "\n") i) n))

/-- A sample event carrying no method, status or timestamp. -/
def sampleEventNoMethod : QEvent := ⟨none, none, none, none, none, none, "x", ""⟩

/-- A sample raw hook event. -/
def sampleRaw : RawEvent := ⟨"xhr", "req", "a", 5, none⟩

/-! ## Helper lemmas -/

theorem isSubL_nil (l : List Char) : isSubL [] l = true := by
  cases l <;> simp [isSubL, startsWithL]

theorem containsStr_empty_needle (hay : String) : containsStr hay "" = true := by
  simpa [containsStr] using isSubL_nil hay.data

theorem find_append_split {α : Type} (l₁ l₂ : List α) (p : α → Bool) :
    (l₁ ++ l₂).find? p =
      match l₁.find? p with
      | some a => some a
      | none => l₂.find? p := by
  induction l₁ with
  | nil => simp
  | cons a t ih =>
    by_cases h : p a
    · simp [List.find?_cons, h]
    · have hf : p a = false := by simpa using h
      simp only [List.cons_append, List.find?_cons, hf]
      exact ih

theorem findSome_append_split {α β : Type} (l₁ l₂ : List α) (f : α → Option β) :
    (l₁ ++ l₂).findSome? f =
      match l₁.findSome? f with
      | some b => some b
      | none => l₂.findSome? f := by
  induction l₁ with
  | nil => simp
  | cons a t ih =>
    cases h : f a
    · simp only [List.cons_append, List.findSome?_cons, h]
      exact ih
    · simp [List.findSome?_cons, h]

theorem foldl_updPkg_eq (l : List String) (p : String) :
    l.foldl updPkg p = (l.reverse.findSome? pkgCapture).getD p := by
  induction l generalizing p with
  | nil => simp
  | cons a t ih =>
    rw [List.foldl_cons, ih, List.reverse_cons, findSome_append_split]
    cases h : t.reverse.findSome? pkgCapture
    · simp [List.findSome?_cons, updPkg]
      cases hc : pkgCapture a <;> simp
    · simp

theorem getIdx_setIdx_ne {α : Type} (d : α) (l : List α) (i j : Nat) (v : α)
    (h : j ≠ i) : getIdx d (setIdx l i v) j = getIdx d l j := by
  induction l generalizing i j with
  | nil => rfl
  | cons x xs ih =>
    cases i with
    | zero =>
      cases j with
      | zero => exact absurd rfl h
      | succ j => rfl
    | succ i =>
      cases j with
      | zero => rfl
      | succ j => exact ih i j (fun hc => h (by omega))

theorem getIdx_append_lt {α : Type} (d : α) (l l2 : List α) (j : Nat)
    (h : j < l.length) : getIdx d (l ++ l2) j = getIdx d l j := by
  induction l generalizing j with
  | nil => simp at h
  | cons x xs ih =>
    cases j with
    | zero => rfl
    | succ j => exact ih j (by simpa using h)

theorem getIdx_append_len {α : Type} (d : α) (l : List α) (x : α) :
    getIdx d (l ++ [x]) l.length = x := by
  induction l with
  | nil => rfl
  | cons y ys ih => exact ih

theorem extractGo_eq (ls : List String) (p : String) :
    extractGo ls p =
      (List.range ls.length).filterMap
        (fun i => (msgCapture (ls.getD i "")).map
          (fun n => qualify ((ls.take (i + 1)).foldl updPkg p) n)) := by
  induction ls generalizing p with
  | nil => simp [extractGo]
  | cons l t ih =>
    have hcomp :
        ((fun i => (msgCapture ((l :: t).getD i "")).map
            (fun n => qualify (((l :: t).take (i + 1)).foldl updPkg p) n)) ∘ Nat.succ)
          = fun i => (msgCapture (t.getD i "")).map
              (fun n => qualify ((t.take (i + 1)).foldl updPkg (updPkg p l)) n) := by
      funext i
      simp [Function.comp, List.getD_cons_succ, List.take_succ_cons]
    rw [List.length_cons, List.range_succ_eq_map, List.filterMap_cons,
      List.filterMap_map, hcomp, ← ih]
    cases h : msgCapture l with
    | none => simp [extractGo, h, List.take_succ_cons]
    | some n => simp [extractGo, h, List.take_succ_cons]

/-- C9: for every schema text, the extracted message type list has one entry
per line matching the message pattern, in source line order, each qualified
by the most recently seen package declaration up to that line (the bare name
when none has been seen); the scan consults no brace structure, so message
nesting cannot influence qualification. -/
theorem c9_extract_line_scan (content : String) :
    extractMessageTypes content = claimMessageTypes content ∧
    ∀ (lines : List String) (i : Nat),
      pkgAt lines i = ((lines.take (i + 1)).reverse.findSome? pkgCapture).getD "" := by
  constructor
  · simp only [extractMessageTypes, claimMessageTypes, pkgAt]
    exact extractGo_eq _ ""
  · intro lines i
    rw [pkgAt, foldl_updPkg_eq]

theorem tryMsgs_eq_find {α : Type} (decode : String → List Nat → Except String α)
    (pname : String) (buffer : List Nat) (msgs : List String) :
    tryMsgs decode pname buffer msgs =
      ((msgs.map (fun mt => (pname, mt))).find?
          (fun pr => isOkE (decode pr.2 buffer))).map
        (fun pr => (⟨true, okOf (decode pr.2 buffer), some pr.2, some pr.1⟩ : DecodeR α)) := by
  induction msgs with
  | nil => simp [tryMsgs]
  | cons mt rest ih =>
    cases h : decode mt buffer with
    | ok d => simp [tryMsgs, h, List.find?_cons, isOkE, okOf]
    | error e => simp [tryMsgs, h, List.find?_cons, isOkE, ih]

theorem tryCands_eq {α : Type} (decode : String → List Nat → Except String α)
    (buffer : List Nat) (cands : List ProtoDefinition) :
    tryCands decode buffer cands =
      ((allPairs cands).find? (fun pr => isOkE (decode pr.2 buffer))).map
        (fun pr => (⟨true, okOf (decode pr.2 buffer), some pr.2, some pr.1⟩ : DecodeR α)) := by
  induction cands with
  | nil => simp [tryCands, allPairs]
  | cons pd rest ih =>
    rw [allPairs, find_append_split]
    have hm := tryMsgs_eq_find decode pd.name buffer pd.messageTypes
    cases hf : (pd.messageTypes.map (fun mt => (pd.name, mt))).find?
        (fun pr => isOkE (decode pr.2 buffer)) with
    | some pr =>
      rw [hf] at hm
      simp [tryCands, hm]
    | none =>
      rw [hf] at hm
      simp [tryCands, hm, ih]

/-- C2: tryParse tries exactly the registered schemas whose name
case-insensitively contains the domain hint (all of them when the hint is
absent), scanning schemas in registration order and message types in
extraction order, returns the first structurally successful attempt with
that attempt's message type and schema name, and returns the failure result
when no attempt succeeds: it equals the specification-side first-match
search over the filtered candidate list. -/
theorem c2_first_match_order {α : Type} (decode : String → List Nat → Except String α)
    (registry : List ProtoDefinition) (buffer : List Nat) (domain : Option String) :
    tryParse decode registry buffer domain =
      .ok (specDecode decode (candidatesOf registry domain) buffer) := by
  rw [tryParse, specDecode, tryCands_eq]
  cases hf : (allPairs (candidatesOf registry domain)).find?
      (fun pr => isOkE (decode pr.2 buffer)) with
  | some pr => cases pr with | mk n mt => simp
  | none => simp [failResult]

/-- C1 (amended): tryParse always returns a DecodeResult value and never
lets an exception escape, for every byte input and registry state; and on an
empty registry (hence no candidate message type) every input, the empty
buffer included, yields the failure result. -/
theorem c1_total_and_empty {α : Type} (decode : String → List Nat → Except String α)
    (registry : List ProtoDefinition) (buffer : List Nat) (domain : Option String) :
    (∃ r, tryParse decode registry buffer domain = .ok r) ∧
    tryParse decode [] buffer domain = .ok failResult := by
  refine ⟨⟨_, rfl⟩, ?_⟩
  cases domain <;> rfl

/-- C1 (counterexample): with one registered schema offering one message
type, the empty buffer decodes structurally (an empty field sequence is
consistent with the wire grammar), so tryParse returns a success result and
not the failure result the claim asserts for empty input. -/
theorem c1_counterexample :
    tryParse structuralDecode [⟨"demo", "", ["p.M"]⟩] ([] : List Nat) none =
      .ok ⟨true, some [], some "p.M", some "demo"⟩ ∧
    (⟨true, some ([] : List (Nat × WireVal)), some "p.M", some "demo"⟩ :
        DecodeR (List (Nat × WireVal))).success = true :=
  ⟨rfl, rfl⟩

theorem drop_one_append {α : Type} (l tl : List α) (h : 1 ≤ l.length) (n : Nat) :
    (l.drop 1 ++ tl).drop n = (l ++ tl).drop (n + 1) := by
  rw [List.drop_append_eq_append_drop, List.drop_append_eq_append_drop,
    List.drop_drop, List.length_drop]
  have hs : n - (l.length - 1) = n + 1 - l.length := by omega
  rw [hs, Nat.add_comm 1 n]

theorem foldl_recordEventG {α : Type} (cap : Nat) :
    ∀ (es acc : List α), acc.length ≤ cap →
      es.foldl (recordEventG cap) acc = (acc ++ es).drop (acc.length + es.length - cap) := by
  intro es
  induction es with
  | nil =>
    intro acc hacc
    have h0 : acc.length + ([] : List α).length - cap = 0 := by
      simp only [List.length_nil, Nat.add_zero]
      omega
    rw [List.foldl_nil, List.append_nil, h0, List.drop_zero]
  | cons e tl ih =>
    intro acc hacc
    rw [List.foldl_cons]
    by_cases hfull : cap < acc.length + 1
    · have hstep : recordEventG cap acc e = (acc ++ [e]).drop 1 := by
        simp [recordEventG, hfull]
      rw [hstep, ih _ (by simp [List.length_drop]; omega)]
      have harith : ((acc ++ [e]).drop 1).length + tl.length - cap = tl.length := by
        simp [List.length_drop]
        omega
      have harith2 : acc.length + (e :: tl).length - cap = tl.length + 1 := by
        simp [List.length_cons]
        omega
      rw [harith, harith2, show acc ++ e :: tl = (acc ++ [e]) ++ tl by simp]
      exact drop_one_append _ _ (by simp) _
    · have hc : ¬ (cap < (acc ++ [e]).length) := by
        simp only [List.length_append, List.length_cons, List.length_nil]
        omega
      have hstep : recordEventG cap acc e = acc ++ [e] := by
        simp only [recordEventG]
        rw [if_neg hc]
      rw [hstep, ih _ (by simp; omega)]
      have harith : (acc ++ [e]).length + tl.length - cap
          = acc.length + (e :: tl).length - cap := by
        simp
        omega
      rw [harith, List.append_assoc, List.singleton_append]

theorem recordAll_spec {α : Type} (cap : Nat) (es : List α) :
    es.foldl (recordEventG cap) [] = es.drop (es.length - cap) := by
  have h := foldl_recordEventG cap es [] (by simp)
  simpa using h

/-- C3: for each hook recorder with its capacity (1000 for the XHR and fetch
hooks, 2000 for the WebSocket hook), recording any sequence of N events into
an empty buffer leaves exactly min(N, capacity) events, equal to the most
recent capacity-many events in arrival order. -/
theorem c3_recorder_bound (xs : List XHREvent) (fs : List FetchEvent)
    (ws : List WSEvent) :
    (xs.foldl xhrRecordEvent []).length = min xs.length 1000 ∧
    xs.foldl xhrRecordEvent [] = xs.drop (xs.length - 1000) ∧
    (fs.foldl fetchRecordEvent []).length = min fs.length 1000 ∧
    fs.foldl fetchRecordEvent [] = fs.drop (fs.length - 1000) ∧
    (ws.foldl wsRecordEvent []).length = min ws.length 2000 ∧
    ws.foldl wsRecordEvent [] = ws.drop (ws.length - 2000) := by
  have hx : xhrRecordEvent = recordEventG 1000 := rfl
  have hf : fetchRecordEvent = recordEventG 1000 := rfl
  have hw : wsRecordEvent = recordEventG 2000 := rfl
  rw [hx, hf, hw, recordAll_spec, recordAll_spec, recordAll_spec]
  refine ⟨?_, rfl, ?_, rfl, ?_, rfl⟩ <;>
    · rw [List.length_drop]
      omega

/-- C4 (code evaluation at the failing input): with no interceptors, when the
original fetch succeeds with a response whose content type says JSON but
whose body does not parse, the advanced wrapper throws the JSON parse error
to the caller instead of handing back the original Response; the basic
wrapper returns the original Response unchanged. -/
theorem c4_transparency_violation :
    advancedFetch (fun s => if s == "ok" then some s else none)
        ([] : List (FetchReq → Bool))
        ⟨"https://api.example.com/data", "GET", [], none⟩
        (.ok ⟨200, "OK", [("content-type", "application/json")], "oops"⟩) =
      .error JsError.jsonError ∧
    basicFetchHook (.ok ⟨200, "OK", [("content-type", "application/json")], "oops"⟩) =
      .ok ⟨200, "OK", [("content-type", "application/json")], "oops"⟩ :=
  ⟨rfl, rfl⟩

/-- C5 (counterexample): an event that carries no method at all is retained
by the POST filter, so the filter output is not restricted to POST-tagged
entries. -/
theorem c5_counterexample :
    EventFilter.filter [sampleEventNoMethod]
        ⟨none, none, some "POST", none, none, none, none⟩ = [sampleEventNoMethod] ∧
    sampleEventNoMethod.method ≠ some "POST" :=
  ⟨rfl, by decide⟩

/-- C5 (amended): filtering on method POST returns, in original relative
order, exactly the events that are POST-tagged (case-insensitively) together
with the events that carry no method or an empty one; and adding a keyword
whose lowercase form occurs in no event's serialized text yields the empty
list. -/
theorem c5_post_filter (events : List QEvent) (k : String) :
    EventFilter.filter events ⟨none, none, some "POST", none, none, none, none⟩ =
      events.filter (fun e =>
        match e.method with
        | none => true
        | some m => m == "" || upperStr m == "POST") ∧
    ((∀ e ∈ events, containsStr (lowerStr (searchTextOf e)) (lowerStr k) = false) →
      EventFilter.filter events ⟨none, none, some "POST", none, none, some k, none⟩ = []) := by
  constructor
  · rw [EventFilter.filter]
    apply List.filter_congr
    intro e _
    have hup : upperStr "POST" = "POST" := rfl
    rcases hm : e.method with _ | m
    · simp [eventPass, sourcePass, urlPass, methodPass, statusPass, timePass,
        keywordPass, ctypePass, strTruthy, scTruthy, hm]
    · by_cases hme : m = ""
      · simp [eventPass, sourcePass, urlPass, methodPass, statusPass, timePass,
          keywordPass, ctypePass, strTruthy, scTruthy, hm, hme]
      · simp [eventPass, sourcePass, urlPass, methodPass, statusPass, timePass,
          keywordPass, ctypePass, strTruthy, scTruthy, hm, hme, hup]
  · intro hkw
    rw [EventFilter.filter]
    rw [List.filter_eq_nil_iff]
    intro e he
    by_cases hk : k = ""
    · exfalso
      have h1 := hkw e he
      rw [hk, show lowerStr "" = "" from rfl, containsStr_empty_needle] at h1
      exact absurd h1 (by decide)
    · have hkf : keywordPass ⟨none, none, some "POST", none, none, some k, none⟩ e
          = false := by
        simp [keywordPass, hk, hkw e he]
      simp [eventPass, hkf]

/-- C5 (witness): the amended keyword statement applied at one event whose
serialized text does not contain the keyword. -/
theorem c5_post_filter_witness :
    EventFilter.filter [sampleEventNoMethod]
        ⟨none, none, some "POST", none, none, some "zq", none⟩ = [] := by
  have h := (c5_post_filter [sampleEventNoMethod] "zq").2
  exact h (by decide)

theorem methodPass_of_no_method (o : FilterOptions) (e : QEvent)
    (h : e.method = none) : methodPass o e = true := by
  simp [methodPass, h, strTruthy]

theorem statusPass_of_no_status (o : FilterOptions) (e : QEvent)
    (h : e.status = none) : statusPass o e = true := by
  rcases hsc : o.statusCode with _ | sc
  · simp only [statusPass, hsc, h]
    split <;> rfl
  · rcases sc with n | ⟨mn, mx⟩
    · simp only [statusPass, hsc, h]
      split <;> rfl
    · simp only [statusPass, hsc, h]
      split <;> rfl

theorem timePass_of_no_timestamp (o : FilterOptions) (e : QEvent)
    (h : e.timestamp = none) : timePass o e = true := by
  rcases htr : o.timeRange with _ | tr <;> simp [timePass, htr, numTruthy, h]

/-- C10: when a method, status-code or time-range constraint is present, an
event whose corresponding field is absent passes that constraint rather than
being excluded; in particular a filter carrying only such constraints
retains every event missing all three fields. -/
theorem c10_missing_field_passes (o : FilterOptions) (e : QEvent)
    (hm : e.method = none) (hs : e.status = none) (ht : e.timestamp = none) :
    methodPass o e = true ∧ statusPass o e = true ∧ timePass o e = true ∧
    ∀ (events : List QEvent) (m : Option String) (sc : Option StatusCode)
      (tr : Option (Nat × Nat)),
      (∀ ev ∈ events, ev.method = none ∧ ev.status = none ∧ ev.timestamp = none) →
      EventFilter.filter events ⟨none, none, m, sc, tr, none, none⟩ = events := by
  refine ⟨methodPass_of_no_method o e hm, statusPass_of_no_status o e hs,
    timePass_of_no_timestamp o e ht, ?_⟩
  intro events m sc tr hall
  rw [EventFilter.filter]
  rw [List.filter_eq_self]
  intro ev hev
  obtain ⟨h1, h2, h3⟩ := hall ev hev
  rw [eventPass, methodPass_of_no_method _ _ h1, statusPass_of_no_status _ _ h2,
    timePass_of_no_timestamp _ _ h3]
  simp [sourcePass, urlPass, keywordPass, ctypePass, strTruthy]

/-- C10 (witness): the theorem applied at a concrete event missing all three
fields and a filter constraining all three. -/
theorem c10_missing_field_witness :
    methodPass ⟨none, none, some "POST", none, none, none, none⟩
      sampleEventNoMethod = true ∧
    EventFilter.filter [sampleEventNoMethod]
        ⟨none, none, some "GET", some (StatusCode.exact 404), some (1, 2), none, none⟩ =
      [sampleEventNoMethod] := by
  have h := c10_missing_field_passes
      ⟨none, none, some "POST", none, none, none, none⟩ sampleEventNoMethod rfl rfl rfl
  exact ⟨h.1, h.2.2.2 [sampleEventNoMethod] (some "GET")
      (some (StatusCode.exact 404)) (some (1, 2)) (by decide)⟩

/-- C6 (counterexample): create a connection and fire only its error
notification: the entry stays in the active set and getActiveConnections
still counts it, contradicting the claim that an error notification removes
it. -/
theorem c6_counterexample :
    getActiveConnections (wsRun wsInitState [WSOp.create "u" 5, WSOp.errorEv "u" 6]) = 1 ∧
    (0 : Nat) ∈ (wsRun wsInitState [WSOp.create "u" 5, WSOp.errorEv "u" 6]).connections :=
  ⟨rfl, by decide⟩

/-- C6 (amended): a Connection entry is added to the active set when the
socket is constructed, and the close notification removes it; the error
notification alone leaves the active set unchanged. -/
theorem c6_active_set (st : WSHookState) (id code t2 : Nat) (url2 reason : String) :
    st.counter ∈ (wsCreate st).connections ∧
    id ∉ (wsCloseEv st id url2 code reason t2).connections ∧
    (wsErrorEv st url2 t2).connections = st.connections := by
  refine ⟨?_, ?_, rfl⟩
  · simp [wsCreate]
  · simp [wsCloseEv, List.mem_filter]

theorem applyMut_preserves (h : SnapHeap) (r b : Nat) (m : ArrMut) (hne : b ≠ r) :
    getIdx [] (applyMut h r m).arrays b = getIdx [] h.arrays b ∧
    (applyMut h r m).objs = h.objs := by
  cases m <;> exact ⟨getIdx_setIdx_ne _ _ _ _ _ hne, rfl⟩

theorem applyMuts_preserves (ms : List ArrMut) : ∀ (h : SnapHeap) (r b : Nat),
    b ≠ r →
    getIdx [] (applyMuts h r ms).arrays b = getIdx [] h.arrays b ∧
    (applyMuts h r ms).objs = h.objs := by
  induction ms with
  | nil => intro h r b _; exact ⟨rfl, rfl⟩
  | cons m ms ih =>
    intro h r b hne
    have h1 := applyMut_preserves h r b m hne
    have h2 := ih (applyMut h r m) r b hne
    rw [show applyMuts h r (m :: ms) = applyMuts (applyMut h r m) r ms from rfl]
    exact ⟨h2.1.trans h1.1, h2.2.trans h1.2⟩

/-- C7 (amended): getEvents hands back a fresh array that initially holds the
same object references as the internal buffer, and no sequence of array-level
mutations the caller performs on that snapshot changes the recorder's
internal array or its rendered event log; independence stops at the array
level, because the event objects themselves are shared (see the
counterexample). -/
theorem c7_snapshot_independence (h : SnapHeap) (bufRef : Nat) (ms : List ArrMut)
    (hbuf : bufRef < h.arrays.length) :
    getIdx [] ((getEventsAlloc h bufRef).1).arrays ((getEventsAlloc h bufRef).2) =
      getIdx [] h.arrays bufRef ∧
    getIdx [] (applyMuts (getEventsAlloc h bufRef).1
        ((getEventsAlloc h bufRef).2) ms).arrays bufRef =
      getIdx [] h.arrays bufRef ∧
    renderBuffer (applyMuts (getEventsAlloc h bufRef).1
        ((getEventsAlloc h bufRef).2) ms) bufRef =
      renderBuffer h bufRef := by
  have hne : bufRef ≠ h.arrays.length := Nat.ne_of_lt hbuf
  have hpres := applyMuts_preserves ms (getEventsAlloc h bufRef).1
      ((getEventsAlloc h bufRef).2) bufRef hne
  have harr : getIdx [] (applyMuts (getEventsAlloc h bufRef).1
      ((getEventsAlloc h bufRef).2) ms).arrays bufRef = getIdx [] h.arrays bufRef := by
    rw [hpres.1]
    exact getIdx_append_lt _ _ _ _ hbuf
  refine ⟨getIdx_append_len _ _ _, harr, ?_⟩
  rw [renderBuffer, renderBuffer, harr, hpres.2]
  rfl

/-- C7 (witness): the independence statement applied at a one-event recorder
and a push mutation on the snapshot. -/
theorem c7_snapshot_witness :
    ((0 : Nat) < ([[0]] : List (List Nat)).length) ∧
    renderBuffer (applyMuts (getEventsAlloc ⟨[[0]], [⟨"a", 200⟩]⟩ 0).1
        ((getEventsAlloc ⟨[[0]], [⟨"a", 200⟩]⟩ 0).2) [ArrMut.push 9]) 0 =
      renderBuffer ⟨[[0]], [⟨"a", 200⟩]⟩ 0 :=
  ⟨by decide,
    (c7_snapshot_independence ⟨[[0]], [⟨"a", 200⟩]⟩ 0 [ArrMut.push 9] (by decide)).2.2⟩

/-- C7 (counterexample): writing a field of an event object reached through
the snapshot changes the recorder's rendered event log, because the snapshot
is a shallow copy sharing its elements with the internal buffer. -/
theorem c7_counterexample :
    renderBuffer (setObjUrl (getEventsAlloc ⟨[[0]], [⟨"a", 200⟩]⟩ 0).1
        (getIdx 0 (getIdx [] ((getEventsAlloc ⟨[[0]], [⟨"a", 200⟩]⟩ 0).1).arrays
          ((getEventsAlloc ⟨[[0]], [⟨"a", 200⟩]⟩ 0).2)) 0) "mutated") 0 ≠
      renderBuffer ⟨[[0]], [⟨"a", 200⟩]⟩ 0 := by
  decide

theorem wsStep_counter_le (st : WSHookState) (op : WSOp) :
    st.counter ≤ (wsStep st op).counter := by
  cases op <;>
    simp [wsStep, wsCreate, wsOpenEv, wsCloseEv, wsErrorEv, wsMessageEv]

theorem wsAssigned_lower (ops : List WSOp) : ∀ (st : WSHookState) (x : Nat),
    x ∈ wsAssigned st ops → st.counter ≤ x := by
  induction ops with
  | nil => intro st x hx; simp [wsAssigned] at hx
  | cons op ops ih =>
    intro st x hx
    cases op with
    | create url t =>
      simp only [wsAssigned, List.mem_cons] at hx
      rcases hx with rfl | hx
      · exact Nat.le_refl _
      · have h1 := ih _ _ hx
        have hc : (wsStep st (WSOp.create url t)).counter = st.counter + 1 := rfl
        omega
    | openEv url t => exact ih (wsStep st (WSOp.openEv url t)) x hx
    | closeEv id url code reason t =>
      exact ih (wsStep st (WSOp.closeEv id url code reason t)) x hx
    | errorEv url t => exact ih (wsStep st (WSOp.errorEv url t)) x hx
    | messageEv url raw t => exact ih (wsStep st (WSOp.messageEv url raw t)) x hx

theorem wsAssigned_pairwise (ops : List WSOp) : ∀ st : WSHookState,
    (wsAssigned st ops).Pairwise (· < ·) := by
  induction ops with
  | nil => intro st; simp [wsAssigned]
  | cons op ops ih =>
    intro st
    cases op with
    | create url t =>
      rw [show wsAssigned st (WSOp.create url t :: ops)
          = st.counter :: wsAssigned (wsStep st (WSOp.create url t)) ops from rfl]
      refine List.Pairwise.cons ?_ (ih _)
      intro x hx
      have h1 := wsAssigned_lower ops (wsStep st (WSOp.create url t)) x hx
      have hc : (wsStep st (WSOp.create url t)).counter = st.counter + 1 := rfl
      omega
    | openEv url t => exact ih _
    | closeEv id url code reason t => exact ih _
    | errorEv url t => exact ih _
    | messageEv url raw t => exact ih _

/-- C8 (amended): the connection ids assigned by the WebSocket hook are
strictly increasing in creation order (hence never reused); stored-event ids
combine the clock reading with a random suffix, and within one millisecond
two events carry distinct ids exactly when their random suffixes differ —
equal draws give equal ids, as the counterexample shows. -/
theorem c8_id_monotonic (ops : List WSOp) (i j x y : Nat) (hij : i < j)
    (hx : (wsAssigned wsInitState ops)[i]? = some x)
    (hy : (wsAssigned wsInitState ops)[j]? = some y) :
    x < y ∧ ∀ (c : Nat) (r r' : String) (e e' : RawEvent),
      r ≠ r' → (makeStored c r e).id ≠ (makeStored c r' e').id := by
  constructor
  · have hp := wsAssigned_pairwise ops wsInitState
    rw [List.getElem?_eq_some] at hx hy
    obtain ⟨hxi, hxe⟩ := hx
    obtain ⟨hyj, hye⟩ := hy
    have hlt := (List.pairwise_iff_getElem.mp hp) i j hxi hyj hij
    rw [hxe, hye] at hlt
    exact hlt
  · intro c r r' e e' hrr heq
    apply hrr
    have heq2 : mkId c r = mkId c r' := heq
    have hd := congrArg String.data heq2
    rw [show mkId c r = (toString c ++ "-") ++ r from rfl,
      show mkId c r' = (toString c ++ "-") ++ r' from rfl,
      String.data_append, String.data_append] at hd
    exact String.ext (List.append_cancel_left hd)

/-- C8 (counterexample): two distinct events stored with the same clock
reading and the same random draw are stamped with the identical id, so ids
are neither unique nor strictly increasing in general. -/
theorem c8_counterexample :
    (assignIds [5, 5] ["x", "x"]
        [⟨"xhr", "req", "a", 5, none⟩, ⟨"xhr", "req", "b", 5, none⟩]).map
        StoredHookEvent.id = ["5-x", "5-x"] ∧
    (⟨"xhr", "req", "a", 5, none⟩ : RawEvent) ≠ ⟨"xhr", "req", "b", 5, none⟩ :=
  ⟨rfl, by decide⟩

/-- C8 (witness): the monotonicity statement applied at two creations, and
the distinct-suffix statement at concrete draws. -/
theorem c8_id_witness :
    ((0 : Nat) < 1) ∧ (makeStored 5 "x" sampleRaw).id ≠ (makeStored 5 "y" sampleRaw).id := by
  have h := c8_id_monotonic [WSOp.create "u" 1, WSOp.create "v" 2] 0 1 0 1
      (by decide) rfl rfl
  exact ⟨h.1, h.2 5 "x" "y" sampleRaw sampleRaw (by decide)⟩
